import Mathlib

/-!
Shallow embedding of `src/src/Canvas.tsx` (the "third sanctuary" prophecy
field): the per-frame fixed-step animation driver of the `Prophecy`
component, its fragment shader, the aspect-ratio fallback, and the grid
layout of the `Prophecies` component.  Machine floats are modelled by exact
rationals (ℚ); the transcendental `Math.sin` by `Real.sin`.
-/

/-- `targetDelta = 1 / 30` (Canvas.tsx line 70): the fixed animation step. -/
def targetDelta : ℚ := 1 / 30

/-- The mutable per-`Prophecy` animation state touched by the `useFrame`
callback (Canvas.tsx lines 67-90): `accum` is `accumRef.current`, `time` is
`timeRef.current`, `offsetX`/`offsetY` are `uOffset.value.x/.y`.
`ticks` is a ghost counter of how many animation ticks (bodies of the
`if accum >= targetDelta` branch) have been applied; the source keeps no
such counter, it only serves to state claims about "applied ticks". -/
structure FrameState where
  accum : ℚ
  time : ℚ
  offsetX : ℚ
  offsetY : ℚ
  ticks : ℕ
deriving DecidableEq, Repr

/-- Initial state: `accumRef = 0`, `timeRef = 0`, `uOffset = (0, 0)`
(Canvas.tsx lines 31, 68, 69), no tick applied yet. -/
def initialFrameState : FrameState :=
  { accum := 0, time := 0, offsetX := 0, offsetY := 0, ticks := 0 }

/-- One invocation of the `useFrame` callback (Canvas.tsx lines 72-90) with
raw frame delta `delta`:
`accumRef.current += delta`; if the accumulator reached `targetDelta`, one
tick is applied — `timeRef += targetDelta`, `uOffset.y -= targetDelta*0.1`,
`uOffset.x += targetDelta*0.1`, and `accumRef.current = 0` — otherwise
nothing else changes.  The mesh-position write of the tick is modelled
separately by `positionY` since it is a pure function of `timeRef`. -/
def onFrame (s : FrameState) (delta : ℚ) : FrameState :=
  let accum := s.accum + delta
  if targetDelta ≤ accum then
    { accum := 0
      time := s.time + targetDelta
      offsetX := s.offsetX + targetDelta * (1 / 10)
      offsetY := s.offsetY - targetDelta * (1 / 10)
      ticks := s.ticks + 1 }
  else
    { s with accum := accum }

/-- A sequence of `useFrame` invocations with the given raw deltas. -/
def runFrames (s : FrameState) (deltas : List ℚ) : FrameState :=
  deltas.foldl onFrame s

/-- The mesh's y position as a function of the animation state
(Canvas.tsx lines 81-86): before the first applied tick it is the `startY`
given by the `position` prop (line 18); each applied tick assigns
`startY + Math.sin(timeRef.current * 4.0 + floatOffset) * 0.1`
(`speed = 4.0`, `floatAmount = 0.1`, line 84), so after at least one tick
it equals that expression at the current `timeRef`. -/
noncomputable def positionY (startY floatOffset : ℝ) (s : FrameState) : ℝ :=
  if s.ticks = 0 then startY
  else startY + Real.sin ((s.time : ℝ) * 4.0 + floatOffset) * 0.1

/-- An RGBA color with exact-rational channels. -/
structure RGBA where
  r : ℚ
  g : ℚ
  b : ℚ
  a : ℚ
deriving DecidableEq, Repr

/-- The fragment shader of the `Prophecy` material (Canvas.tsx lines 41-62).
Textures are modelled as sampling functions `ℚ × ℚ → RGBA`:
`prophecyColor = texture2D(uProphecy, vUv)`,
`oceanColor = texture2D(uOcean, vUv + uOffset)`,
`blueTint = vec3(0.0, 0.1, 0.6)`, `grayHint = vec3(0.1 * uGrayHint)`,
`finalColor = oceanColor.rgb + blueTint + grayHint`; the fragment is
`vec4(finalColor, oceanColor.a)` when `prophecyColor.a < 0.5` and is
discarded (`none`) otherwise. -/
def fragmentShader (uProphecy uOcean : ℚ × ℚ → RGBA) (uOffset : ℚ × ℚ)
    (uGrayHint : ℚ) (vUv : ℚ × ℚ) : Option RGBA :=
  let prophecyColor := uProphecy vUv
  let oceanColor := uOcean (vUv.1 + uOffset.1, vUv.2 + uOffset.2)
  let blueTint : ℚ × ℚ × ℚ := (0, 1 / 10, 6 / 10)
  let grayHint : ℚ × ℚ × ℚ :=
    (1 / 10 * uGrayHint, 1 / 10 * uGrayHint, 1 / 10 * uGrayHint)
  let finalColor : ℚ × ℚ × ℚ :=
    (oceanColor.r + blueTint.1 + grayHint.1,
     oceanColor.g + blueTint.2.1 + grayHint.2.1,
     oceanColor.b + blueTint.2.2 + grayHint.2.2)
  if prophecyColor.a < 1 / 2 then
    some { r := finalColor.1, g := finalColor.2.1, b := finalColor.2.2,
           a := oceanColor.a }
  else
    none

/-- `aspectRatio` of a `Prophecy` (Canvas.tsx lines 21-24): `1` when the
texture's image metadata is unavailable (`!prophecyTexture.image`),
otherwise `image.width / image.height`.  The metadata is modelled as an
optional `(width, height)` pair. -/
def aspectRatio (image : Option (ℚ × ℚ)) : ℚ :=
  match image with
  | none => 1
  | some (w, h) => w / h

/-- The `planeGeometry args={[aspectRatio * size, size]}` of the panel mesh
(Canvas.tsx line 94). -/
def planeGeometryArgs (image : Option (ℚ × ℚ)) (size : ℚ) : ℚ × ℚ :=
  (aspectRatio image * size, size)

/-- `spacingX = 2.5` (Canvas.tsx line 140). -/
def spacingX : ℚ := 5 / 2

/-- `spacingY = 2.5` (Canvas.tsx line 141). -/
def spacingY : ℚ := 5 / 2

/-- `rows = Math.ceil(prophecyCount / columns)` (Canvas.tsx line 139),
as natural-number ceiling division. -/
def rowsFor (prophecyCount columns : ℕ) : ℕ :=
  (prophecyCount + columns - 1) / columns

/-- The grid placement of panel `index` in a layer of the `Prophecies`
component (Canvas.tsx lines 146-150):
`col = index % columns`, `row = floor(index / columns)`,
`x = (col - (columns - 1) / 2) * spacingX`,
`y = ((rows - 1) / 2 - row) * spacingY`. -/
def placement (prophecyCount columns index : ℕ) : ℚ × ℚ :=
  let col : ℕ := index % columns
  let row : ℕ := index / columns
  let rows : ℕ := rowsFor prophecyCount columns
  (((col : ℚ) - ((columns : ℚ) - 1) / 2) * spacingX,
   (((rows : ℚ) - 1) / 2 - (row : ℚ)) * spacingY)

/-- All placements of one layer: indices `0 .. prophecyCount - 1`
(Canvas.tsx line 145). -/
def placements (prophecyCount columns : ℕ) : List (ℚ × ℚ) :=
  (List.range prophecyCount).map (placement prophecyCount columns)

/-- Mean of the x coordinates of a layer's placements. -/
def meanX (prophecyCount columns : ℕ) : ℚ :=
  ((placements prophecyCount columns).map Prod.fst).sum / prophecyCount

/-- Mean of the y coordinates of a layer's placements. -/
def meanY (prophecyCount columns : ℕ) : ℚ :=
  ((placements prophecyCount columns).map Prod.snd).sum / prophecyCount

lemma runFrames_nil (s : FrameState) : runFrames s [] = s := rfl

lemma runFrames_cons (s : FrameState) (d : ℚ) (t : List ℚ) :
    runFrames s (d :: t) = runFrames (onFrame s d) t := rfl

/-- If the accumulator reaches `targetDelta`, the tick branch runs. -/
lemma onFrame_of_le (s : FrameState) (d : ℚ) (h : targetDelta ≤ s.accum + d) :
    onFrame s d =
      { accum := 0
        time := s.time + targetDelta
        offsetX := s.offsetX + targetDelta * (1 / 10)
        offsetY := s.offsetY - targetDelta * (1 / 10)
        ticks := s.ticks + 1 } := by
  simp only [onFrame]
  rw [if_pos h]

/-- If the accumulator stays below `targetDelta`, only the accumulator moves. -/
lemma onFrame_of_lt (s : FrameState) (d : ℚ) (h : s.accum + d < targetDelta) :
    onFrame s d = { s with accum := s.accum + d } := by
  simp only [onFrame]
  rw [if_neg (not_le.mpr h)]

/-- The scroll offset always equals `(ticks * targetDelta / 10, -(ticks * targetDelta / 10))`
along any run, provided it does so at the start. -/
lemma runFrames_offset (deltas : List ℚ) : ∀ s : FrameState,
    s.offsetX = (s.ticks : ℚ) * targetDelta * (1 / 10) →
    s.offsetY = -((s.ticks : ℚ) * targetDelta * (1 / 10)) →
    (runFrames s deltas).offsetX
        = ((runFrames s deltas).ticks : ℚ) * targetDelta * (1 / 10)
    ∧ (runFrames s deltas).offsetY
        = -(((runFrames s deltas).ticks : ℚ) * targetDelta * (1 / 10)) := by
  induction deltas with
  | nil => exact fun s h1 h2 => ⟨h1, h2⟩
  | cons d t ih =>
    intro s h1 h2
    rw [runFrames_cons]
    by_cases hc : targetDelta ≤ s.accum + d
    · refine ih (onFrame s d) ?_ ?_ <;> rw [onFrame_of_le s d hc]
      · simp only []
        rw [h1]
        push_cast
        ring
      · simp only []
        rw [h2]
        push_cast
        ring
    · refine ih (onFrame s d) ?_ ?_ <;>
        rw [onFrame_of_lt s d (not_le.mp hc)] <;> assumption

/-- Over any run, `ticks * targetDelta + accum` never exceeds the starting
`ticks * targetDelta + accum` plus the total delta fed in, and the
accumulator stays nonnegative (deltas nonnegative). -/
lemma runFrames_ticks_bound (deltas : List ℚ) : ∀ s : FrameState,
    0 ≤ s.accum → (∀ d ∈ deltas, 0 ≤ d) →
    ((runFrames s deltas).ticks : ℚ) * targetDelta + (runFrames s deltas).accum
        ≤ (s.ticks : ℚ) * targetDelta + s.accum + deltas.sum
    ∧ 0 ≤ (runFrames s deltas).accum := by
  induction deltas with
  | nil =>
    intro s hs _
    simp only [runFrames_nil, List.sum_nil, add_zero]
    exact ⟨le_refl _, hs⟩
  | cons d t ih =>
    intro s hs hd
    have hd0 : 0 ≤ d := hd d (by simp)
    have hdt : ∀ x ∈ t, 0 ≤ x := fun x hx => hd x (by simp [hx])
    rw [runFrames_cons, List.sum_cons]
    by_cases hc : targetDelta ≤ s.accum + d
    · rw [onFrame_of_le s d hc]
      obtain ⟨h1, h2⟩ := ih
        { accum := 0, time := s.time + targetDelta
          offsetX := s.offsetX + targetDelta * (1 / 10)
          offsetY := s.offsetY - targetDelta * (1 / 10)
          ticks := s.ticks + 1 } (le_refl 0) hdt
      refine ⟨?_, h2⟩
      push_cast at h1 ⊢
      linarith
    · rw [onFrame_of_lt s d (not_le.mp hc)]
      obtain ⟨h1, h2⟩ := ih { s with accum := s.accum + d }
        (add_nonneg hs hd0) hdt
      refine ⟨?_, h2⟩
      simp only [] at h1
      linarith

/-- C5: starting from `scrollOffset = (0, 0)`, after any run of frame calls
the scroll offset equals exactly
`(0.1 * N * targetDelta, -(0.1 * N * targetDelta))` where `N` is the number
of applied animation ticks: each applied tick adds `targetDelta * 0.1` to x
and subtracts `targetDelta * 0.1` from y, and nothing else moves the
offset. -/
theorem scroll_offset_linear_in_ticks (deltas : List ℚ) :
    (runFrames initialFrameState deltas).offsetX
        = ((runFrames initialFrameState deltas).ticks : ℚ) * targetDelta * (1 / 10)
    ∧ (runFrames initialFrameState deltas).offsetY
        = -(((runFrames initialFrameState deltas).ticks : ℚ) * targetDelta * (1 / 10)) :=
  runFrames_offset deltas initialFrameState (by simp [initialFrameState])
    (by simp [initialFrameState])

/-- C1 counterexample: the one-call sequence `[10 * targetDelta]` sums to
`10 * targetDelta`, yet it applies exactly 1 animation tick (not 10) and
leaves `elapsedAnimTime = targetDelta` (not `10 * targetDelta`), because
the frame callback applies at most one tick per call and then resets the
accumulator to zero. -/
theorem single_large_delta_breaks_determinism :
    ([10 * targetDelta] : List ℚ).sum = 10 * targetDelta
    ∧ (runFrames initialFrameState [10 * targetDelta]).ticks = 1
    ∧ (runFrames initialFrameState [10 * targetDelta]).ticks ≠ 10
    ∧ (runFrames initialFrameState [10 * targetDelta]).time = targetDelta
    ∧ (runFrames initialFrameState [10 * targetDelta]).time ≠ 10 * targetDelta := by
  norm_num [runFrames, onFrame, initialFrameState, targetDelta]

/-- C1 amended: ten calls of `targetDelta` each apply exactly 10 ticks and
leave `elapsedAnimTime = 10 * targetDelta`, but the update is not
split-invariant: a single call of `10 * targetDelta` applies exactly 1 tick
and leaves `elapsedAnimTime = targetDelta`, a different final state. -/
theorem fixed_step_split_dependence :
    (runFrames initialFrameState (List.replicate 10 targetDelta)).ticks = 10
    ∧ (runFrames initialFrameState (List.replicate 10 targetDelta)).time
        = 10 * targetDelta
    ∧ (runFrames initialFrameState [10 * targetDelta]).ticks = 1
    ∧ (runFrames initialFrameState [10 * targetDelta]).time = targetDelta
    ∧ runFrames initialFrameState (List.replicate 10 targetDelta)
        ≠ runFrames initialFrameState [10 * targetDelta] := by
  norm_num [runFrames, onFrame, initialFrameState, targetDelta, List.replicate,
    FrameState.mk.injEq]

/-- C2 counterexample: from the initial state, a call with raw delta
`2 * targetDelta` makes `pending = 2 * targetDelta ≥ targetDelta`, a tick is
applied, and the accumulator afterwards is `0` — not
`2 * targetDelta - targetDelta = targetDelta` as the claim's
"reduced by exactly fixedStep, not reset to zero" requires. -/
theorem accum_reset_not_decrement :
    targetDelta ≤ initialFrameState.accum + 2 * targetDelta
    ∧ (onFrame initialFrameState (2 * targetDelta)).ticks
        = initialFrameState.ticks + 1
    ∧ (onFrame initialFrameState (2 * targetDelta)).accum = 0
    ∧ (onFrame initialFrameState (2 * targetDelta)).accum
        ≠ initialFrameState.accum + 2 * targetDelta - targetDelta := by
  norm_num [onFrame, initialFrameState, targetDelta]

/-- C2 amended: whenever `pending + delta ≥ targetDelta`, one tick is
applied and the accumulator is reset to exactly zero (the leftover beyond
one `targetDelta` is discarded, not preserved); consequently over any run
from the initial state with nonnegative deltas summing to `T`, the number
of applied ticks is at most `⌊T / targetDelta⌋` (the claimed lower bound
within one unit does not hold). -/
theorem tick_resets_accum_and_bounds_ticks :
    (∀ (s : FrameState) (d : ℚ), targetDelta ≤ s.accum + d →
        (onFrame s d).ticks = s.ticks + 1 ∧ (onFrame s d).accum = 0)
    ∧ ∀ deltas : List ℚ, (∀ d ∈ deltas, 0 ≤ d) →
        (runFrames initialFrameState deltas).ticks
          ≤ ⌊deltas.sum / targetDelta⌋₊ := by
  constructor
  · intro s d h
    rw [onFrame_of_le s d h]
    exact ⟨rfl, rfl⟩
  · intro deltas hd
    obtain ⟨h1, h2⟩ := runFrames_ticks_bound deltas initialFrameState
      (by simp [initialFrameState]) hd
    rw [show initialFrameState.accum = 0 from rfl,
      show initialFrameState.ticks = 0 from rfl] at h1
    push_cast at h1
    have htd : (0 : ℚ) < targetDelta := by norm_num [targetDelta]
    refine Nat.le_floor ?_
    rw [le_div_iff₀ htd]
    linarith

/-- Concrete run of `tick_resets_accum_and_bounds_ticks`: one call of
`2 * targetDelta` from the initial state resets the accumulator to zero and
the tick count stays within `⌊sum / targetDelta⌋`. -/
theorem tick_resets_accum_and_bounds_ticks_witness :
    ((onFrame initialFrameState (2 * targetDelta)).ticks
        = initialFrameState.ticks + 1
      ∧ (onFrame initialFrameState (2 * targetDelta)).accum = 0)
    ∧ (runFrames initialFrameState [2 * targetDelta]).ticks
        ≤ ⌊([2 * targetDelta] : List ℚ).sum / targetDelta⌋₊ := by
  constructor
  · exact tick_resets_accum_and_bounds_ticks.1 initialFrameState
      (2 * targetDelta) (by norm_num [initialFrameState, targetDelta])
  · exact tick_resets_accum_and_bounds_ticks.2 [2 * targetDelta]
      (by norm_num [targetDelta])

/-- C9: a frame call whose delta leaves the accumulated pending below
`targetDelta` applies no tick: the elapsed animation time, the scroll
offset, the tick count and the mesh's y position are all unchanged, and
only the accumulator grows by the delta. -/
theorem no_tick_below_threshold (s : FrameState) (d : ℚ)
    (h : s.accum + d < targetDelta) :
    (onFrame s d).accum = s.accum + d
    ∧ (onFrame s d).time = s.time
    ∧ (onFrame s d).offsetX = s.offsetX
    ∧ (onFrame s d).offsetY = s.offsetY
    ∧ (onFrame s d).ticks = s.ticks
    ∧ ∀ startY floatOffset : ℝ,
        positionY startY floatOffset (onFrame s d)
          = positionY startY floatOffset s := by
  rw [onFrame_of_lt s d h]
  exact ⟨rfl, rfl, rfl, rfl, rfl, fun _ _ => rfl⟩

/-- Concrete run of `no_tick_below_threshold` at the initial state with a
60 fps delta. -/
theorem no_tick_below_threshold_witness :
    (onFrame initialFrameState (1 / 60)).accum = initialFrameState.accum + 1 / 60
    ∧ (onFrame initialFrameState (1 / 60)).time = initialFrameState.time
    ∧ (onFrame initialFrameState (1 / 60)).offsetX = initialFrameState.offsetX
    ∧ (onFrame initialFrameState (1 / 60)).offsetY = initialFrameState.offsetY
    ∧ (onFrame initialFrameState (1 / 60)).ticks = initialFrameState.ticks
    ∧ positionY 0 0 (onFrame initialFrameState (1 / 60))
        = positionY 0 0 initialFrameState := by
  have h := no_tick_below_threshold initialFrameState (1 / 60)
    (by norm_num [initialFrameState, targetDelta])
  exact ⟨h.1, h.2.1, h.2.2.1, h.2.2.2.1, h.2.2.2.2.1, h.2.2.2.2.2 0 0⟩

/-- C10: in any single frame call, at most one animation tick is applied
no matter how large the raw delta is (the threshold test is one
conditional, not a loop), and when a tick is applied the accumulator is
reset to exactly zero, discarding any time beyond one `targetDelta`. -/
theorem at_most_one_tick_per_frame (s : FrameState) (d : ℚ) :
    (onFrame s d).ticks ≤ s.ticks + 1
    ∧ (targetDelta ≤ s.accum + d →
        (onFrame s d).ticks = s.ticks + 1 ∧ (onFrame s d).accum = 0) := by
  by_cases hc : targetDelta ≤ s.accum + d
  · rw [onFrame_of_le s d hc]
    exact ⟨le_refl _, fun _ => ⟨rfl, rfl⟩⟩
  · rw [onFrame_of_lt s d (not_le.mp hc)]
    exact ⟨Nat.le_succ _, fun h => absurd h hc⟩

/-- Concrete run of `at_most_one_tick_per_frame`: a delta of ten steps at
once still applies exactly one tick and zeroes the accumulator. -/
theorem at_most_one_tick_per_frame_witness :
    (onFrame initialFrameState (10 * targetDelta)).ticks
        ≤ initialFrameState.ticks + 1
    ∧ ((onFrame initialFrameState (10 * targetDelta)).ticks
          = initialFrameState.ticks + 1
        ∧ (onFrame initialFrameState (10 * targetDelta)).accum = 0) := by
  have h := at_most_one_tick_per_frame initialFrameState (10 * targetDelta)
  exact ⟨h.1, h.2 (by norm_num [initialFrameState, targetDelta])⟩

/-- C6: for every `animPhase`, every start height and every reachable
animation state, the mesh's y position stays within
`[startY - 0.1, startY + 0.1]`; moreover after at least one tick it is
assigned absolutely as `startY + sin(elapsedAnimTime * 4.0 + animPhase) * 0.1`,
never accumulated, so no drift is possible. -/
theorem positionY_bounded (startY floatOffset : ℝ) (s : FrameState) :
    startY - 0.1 ≤ positionY startY floatOffset s
    ∧ positionY startY floatOffset s ≤ startY + 0.1
    ∧ (s.ticks ≠ 0 →
        positionY startY floatOffset s
          = startY + Real.sin ((s.time : ℝ) * 4.0 + floatOffset) * 0.1) := by
  unfold positionY
  by_cases h : s.ticks = 0
  · rw [if_pos h]
    refine ⟨by norm_num, by norm_num, fun hne => absurd h hne⟩
  · rw [if_neg h]
    have hs1 := Real.sin_le_one ((s.time : ℝ) * 4.0 + floatOffset)
    have hs2 := Real.neg_one_le_sin ((s.time : ℝ) * 4.0 + floatOffset)
    refine ⟨by nlinarith, by nlinarith, fun _ => rfl⟩

/-- Concrete run of `positionY_bounded` after one tick from height 0 and
phase 0. -/
theorem positionY_bounded_witness :
    (0 : ℝ) - 0.1 ≤ positionY 0 0
        { accum := 0, time := 1 / 30, offsetX := 1 / 300,
          offsetY := -(1 / 300), ticks := 1 }
    ∧ positionY 0 0
        { accum := 0, time := 1 / 30, offsetX := 1 / 300,
          offsetY := -(1 / 300), ticks := 1 } ≤ 0 + 0.1
    ∧ positionY 0 0
        { accum := 0, time := 1 / 30, offsetX := 1 / 300,
          offsetY := -(1 / 300), ticks := 1 }
        = 0 + Real.sin ((((1 : ℚ) / 30 : ℚ) : ℝ) * 4.0 + 0) * 0.1 := by
  have h := positionY_bounded 0 0
    { accum := 0, time := 1 / 30, offsetX := 1 / 300,
      offsetY := -(1 / 300), ticks := 1 }
  exact ⟨h.1, h.2.1, h.2.2 (by decide)⟩

/-- C4: per-pixel cutout rule of the fragment shader: a fragment whose
sampled panel alpha is at least `1/2` is discarded; otherwise the output
color is the background color (sampled at the surface coordinate plus the
scroll offset) plus `(0, 0.1, 0.6)` plus `0.1 * tint` in every channel,
with the output alpha equal to the sampled background alpha. -/
theorem fragment_shader_cutout_rule
    (uProphecy uOcean : ℚ × ℚ → RGBA) (uOffset : ℚ × ℚ) (uGrayHint : ℚ)
    (vUv : ℚ × ℚ) :
    (1 / 2 ≤ (uProphecy vUv).a →
        fragmentShader uProphecy uOcean uOffset uGrayHint vUv = none)
    ∧ ((uProphecy vUv).a < 1 / 2 →
        fragmentShader uProphecy uOcean uOffset uGrayHint vUv
          = some { r := (uOcean (vUv.1 + uOffset.1, vUv.2 + uOffset.2)).r
                          + 0 + 1 / 10 * uGrayHint
                   g := (uOcean (vUv.1 + uOffset.1, vUv.2 + uOffset.2)).g
                          + 1 / 10 + 1 / 10 * uGrayHint
                   b := (uOcean (vUv.1 + uOffset.1, vUv.2 + uOffset.2)).b
                          + 6 / 10 + 1 / 10 * uGrayHint
                   a := (uOcean (vUv.1 + uOffset.1, vUv.2 + uOffset.2)).a }) := by
  simp only [fragmentShader]
  constructor
  · intro h
    rw [if_neg (not_lt.mpr h)]
  · intro h
    rw [if_pos h]

/-- Concrete run of `fragment_shader_cutout_rule` with a panel texel of
alpha `0.9` (discarded) and one of alpha `0.3` (drawn over a white
background with zero tint). -/
theorem fragment_shader_cutout_rule_witness :
    fragmentShader (fun _ => ⟨0, 0, 0, 9 / 10⟩) (fun _ => ⟨1, 1, 1, 1⟩)
        (0, 0) 0 (0, 0) = none
    ∧ fragmentShader (fun _ => ⟨0, 0, 0, 3 / 10⟩) (fun _ => ⟨1, 1, 1, 1⟩)
        (0, 0) 0 (0, 0)
      = some { r := (1 : ℚ) + 0 + 1 / 10 * 0, g := 1 + 1 / 10 + 1 / 10 * 0,
               b := 1 + 6 / 10 + 1 / 10 * 0, a := 1 } := by
  constructor
  · exact (fragment_shader_cutout_rule (fun _ => ⟨0, 0, 0, 9 / 10⟩)
      (fun _ => ⟨1, 1, 1, 1⟩) (0, 0) 0 (0, 0)).1 (by norm_num)
  · exact (fragment_shader_cutout_rule (fun _ => ⟨0, 0, 0, 3 / 10⟩)
      (fun _ => ⟨1, 1, 1, 1⟩) (0, 0) 0 (0, 0)).2 (by norm_num)

/-- C8: at panel construction the aspect ratio falls back to exactly `1`
when the image metadata is unavailable, equals `width / height` when it is
available, and the plane geometry is sized
`(aspectRatio * size, size)` in every case — so a missing image still
yields a well-defined square geometry `(size, size)`. -/
theorem aspect_ratio_fallback :
    aspectRatio none = 1
    ∧ (∀ w h : ℚ, aspectRatio (some (w, h)) = w / h)
    ∧ (∀ (image : Option (ℚ × ℚ)) (size : ℚ),
        planeGeometryArgs image size = (aspectRatio image * size, size))
    ∧ (∀ size : ℚ, planeGeometryArgs none size = (size, size)) := by
  refine ⟨rfl, fun w h => rfl, fun i s => rfl, fun s => ?_⟩
  simp [planeGeometryArgs, aspectRatio]

lemma sum_map_sub_const (l : List ℕ) (f : ℕ → ℚ) (K : ℚ) :
    (l.map (fun i => f i - K)).sum = (l.map f).sum - l.length * K := by
  induction l with
  | nil => simp
  | cons a t ih =>
    simp only [List.map_cons, List.sum_cons, List.length_cons, ih]
    push_cast
    ring

lemma sum_map_const_sub (l : List ℕ) (K : ℚ) (f : ℕ → ℚ) :
    (l.map (fun i => K - f i)).sum = l.length * K - (l.map f).sum := by
  induction l with
  | nil => simp
  | cons a t ih =>
    simp only [List.map_cons, List.sum_cons, List.length_cons, ih]
    push_cast
    ring

lemma sum_map_mul_const (l : List ℕ) (f : ℕ → ℚ) (K : ℚ) :
    (l.map (fun i => f i * K)).sum = (l.map f).sum * K := by
  induction l with
  | nil => simp
  | cons a t ih =>
    simp only [List.map_cons, List.sum_cons, ih]
    ring

lemma sum_map_const_mul (l : List ℕ) (K : ℚ) (f : ℕ → ℚ) :
    (l.map (fun i => K * f i)).sum = K * (l.map f).sum := by
  induction l with
  | nil => simp
  | cons a t ih =>
    simp only [List.map_cons, List.sum_cons, ih]
    ring

lemma sum_map_const (l : List ℕ) (K : ℚ) :
    (l.map (fun _ => K)).sum = l.length * K := by
  induction l with
  | nil => simp
  | cons a t ih =>
    simp only [List.map_cons, List.sum_cons, List.length_cons, ih]
    push_cast
    ring

lemma sum_range_cast (n : ℕ) :
    ((List.range n).map (fun i => ((i : ℕ) : ℚ))).sum = n * (n - 1) / 2 := by
  induction n with
  | zero => simp
  | succ n ih =>
    rw [List.range_succ, List.map_append, List.sum_append, ih]
    simp only [List.map_cons, List.map_nil, List.sum_cons, List.sum_nil]
    push_cast
    ring

/-- A sum over `range (r * c)` of a function of `(i / c, i % c)` is the sum
over the `r` rows of the per-row sums over the `c` columns. -/
lemma sum_range_mul_div_mod (r c : ℕ) (hc : 0 < c) (g : ℕ → ℕ → ℚ) :
    ((List.range (r * c)).map (fun i => g (i / c) (i % c))).sum
      = ((List.range r).map
          (fun row => ((List.range c).map (g row)).sum)).sum := by
  induction r with
  | zero => simp
  | succ r ih =>
    have hrc : (r + 1) * c = r * c + c := by ring
    rw [hrc, List.range_add, List.map_append, List.sum_append, ih,
      List.range_succ, List.map_append, List.sum_append]
    congr 1
    simp only [List.map_cons, List.map_nil, List.sum_cons, List.sum_nil,
      add_zero]
    apply congrArg List.sum
    rw [List.map_map]
    apply List.map_congr_left
    intro j hj
    have hjc : j < c := List.mem_range.mp hj
    show g ((r * c + j) / c) ((r * c + j) % c) = g r j
    rw [Nat.add_comm (r * c) j, Nat.mul_comm r c, Nat.add_mul_div_left j r hc,
      Nat.div_eq_of_lt hjc, Nat.zero_add, Nat.add_mul_mod_self_left j c r,
      Nat.mod_eq_of_lt hjc]

lemma rowsFor_mul (r c : ℕ) (hc : 0 < c) : rowsFor (r * c) c = r := by
  unfold rowsFor
  have h1 : r * c + c - 1 = (c - 1) + r * c := by omega
  rw [h1, Nat.add_mul_div_right (c - 1) r hc,
    Nat.div_eq_of_lt (by omega : c - 1 < c), Nat.zero_add]

lemma placements_map_fst (count c : ℕ) :
    (placements count c).map Prod.fst
      = (List.range count).map
          (fun i => ((i % c : ℕ) - ((c : ℕ) - 1) / 2 : ℚ) * spacingX) := by
  unfold placements
  rw [List.map_map]
  rfl

lemma placements_map_snd (count c : ℕ) :
    (placements count c).map Prod.snd
      = (List.range count).map
          (fun i => (((rowsFor count c : ℕ) - 1) / 2 - (i / c : ℕ) : ℚ)
              * spacingY) := by
  unfold placements
  rw [List.map_map]
  rfl

/-- The x placements of any single full row of `c` columns sum to zero. -/
lemma inner_x_sum (c : ℕ) :
    ((List.range c).map
        (fun col => ((col : ℕ) - ((c : ℕ) - 1) / 2 : ℚ) * spacingX)).sum = 0 := by
  rw [sum_map_mul_const (List.range c)
        (fun col => ((col : ℕ) - ((c : ℕ) - 1) / 2 : ℚ)) spacingX,
    sum_map_sub_const (List.range c) (fun col => ((col : ℕ) : ℚ))
      (((c : ℕ) - 1) / 2 : ℚ),
    sum_range_cast, List.length_range]
  ring

/-- C3 amended: the layout is centered exactly when the last row is full:
for every `panelCount > 0` and `columns > 0` with `columns` dividing
`panelCount`, the mean of the x placements and the mean of the y placements
are both zero (in exact rational arithmetic).  (With a partial last row the
means are in general nonzero.) -/
theorem centering_of_full_grid (count c : ℕ) (hcount : 0 < count)
    (hc : 0 < c) (hdvd : c ∣ count) :
    meanX count c = 0 ∧ meanY count c = 0 := by
  obtain ⟨r, hr⟩ := hdvd
  have hrc : count = r * c := by rw [hr]; ring
  constructor
  · have hx : ((placements count c).map Prod.fst).sum = 0 := by
      rw [placements_map_fst, hrc,
        sum_range_mul_div_mod r c hc
          (fun _ col => ((col : ℕ) - ((c : ℕ) - 1) / 2 : ℚ) * spacingX)]
      simp only [inner_x_sum]
      simp
    unfold meanX
    rw [hx]
    exact zero_div _
  · have hy : ((placements count c).map Prod.snd).sum = 0 := by
      rw [placements_map_snd, hrc]
      simp only [rowsFor_mul r c hc]
      rw [sum_range_mul_div_mod r c hc
        (fun row _ => (((r : ℕ) - 1) / 2 - (row : ℕ) : ℚ) * spacingY)]
      simp only [sum_map_const, List.length_range]
      rw [sum_map_const_mul (List.range r) ((c : ℕ) : ℚ)
          (fun row => (((r : ℕ) - 1) / 2 - (row : ℕ) : ℚ) * spacingY),
        sum_map_mul_const (List.range r)
          (fun row => (((r : ℕ) - 1) / 2 - (row : ℕ) : ℚ)) spacingY,
        sum_map_const_sub (List.range r) (((r : ℕ) - 1) / 2 : ℚ)
          (fun row => ((row : ℕ) : ℚ)),
        sum_range_cast, List.length_range]
      ring
    unfold meanY
    rw [hy]
    exact zero_div _

/-- Concrete run of `centering_of_full_grid`: a 2-row, 3-column grid of 6
panels is exactly centered. -/
theorem centering_of_full_grid_witness : meanX 6 3 = 0 ∧ meanY 6 3 = 0 :=
  centering_of_full_grid 6 3 (by norm_num) (by norm_num) (by norm_num)

/-- C3 counterexample: the actual layer `panelCount = 100, columns = 9` of
the scene has a partial last row (one panel), and its placements are not
centered: the mean of the x placements is `-1/10` and the mean of the y
placements is `11/10`, both nonzero. -/
theorem layer_100_9_not_centered :
    meanX 100 9 = -(1 / 10) ∧ meanY 100 9 = 11 / 10
    ∧ ¬(meanX 100 9 = 0 ∧ meanY 100 9 = 0) := by
  have hx : ((placements 100 9).map Prod.fst).sum = -10 := by
    rw [placements_map_fst, show (100 : ℕ) = 11 * 9 + 1 from rfl,
      List.range_succ, List.map_append, List.sum_append,
      sum_range_mul_div_mod 11 9 (by norm_num)
        (fun _ col => ((col : ℕ) - ((9 : ℕ) - 1) / 2 : ℚ) * spacingX)]
    simp only [inner_x_sum]
    norm_num [spacingX]
  have hy : ((placements 100 9).map Prod.snd).sum = 110 := by
    rw [placements_map_snd]
    simp only [show rowsFor 100 9 = 12 from by norm_num [rowsFor]]
    rw [show (100 : ℕ) = 11 * 9 + 1 from rfl,
      List.range_succ, List.map_append, List.sum_append,
      sum_range_mul_div_mod 11 9 (by norm_num)
        (fun row _ => (((12 : ℕ) - 1) / 2 - (row : ℕ) : ℚ) * spacingY)]
    simp only [sum_map_const, List.length_range]
    rw [sum_map_const_mul (List.range 11) ((9 : ℕ) : ℚ)
        (fun row => (((12 : ℕ) - 1) / 2 - (row : ℕ) : ℚ) * spacingY),
      sum_map_mul_const (List.range 11)
        (fun row => (((12 : ℕ) - 1) / 2 - (row : ℕ) : ℚ)) spacingY,
      sum_map_const_sub (List.range 11) (((12 : ℕ) - 1) / 2 : ℚ)
        (fun row => ((row : ℕ) : ℚ)),
      sum_range_cast, List.length_range]
    norm_num [spacingY]
  have hmx : meanX 100 9 = -(1 / 10) := by
    unfold meanX
    rw [hx]
    norm_num
  have hmy : meanY 100 9 = 11 / 10 := by
    unfold meanY
    rw [hy]
    norm_num
  refine ⟨hmx, hmy, ?_⟩
  rintro ⟨h0, -⟩
  rw [hmx] at h0
  norm_num at h0

/-- Distinct indices always get distinct `(x, y)` placements: the x
coordinate determines the column and the y coordinate determines the row. -/
lemma placement_injective (count c : ℕ) :
    Function.Injective (placement count c) := by
  intro i j hij
  have hx := congrArg Prod.fst hij
  have hy := congrArg Prod.snd hij
  simp only [placement] at hx hy
  have hsx : spacingX ≠ 0 := by norm_num [spacingX]
  have hsy : spacingY ≠ 0 := by norm_num [spacingY]
  have hcol : ((i % c : ℕ) : ℚ) = ((j % c : ℕ) : ℚ) := by
    have h := mul_right_cancel₀ hsx hx
    linarith
  have hrow : ((i / c : ℕ) : ℚ) = ((j / c : ℕ) : ℚ) := by
    have h := mul_right_cancel₀ hsy hy
    linarith
  have hcol' : i % c = j % c := Nat.cast_injective hcol
  have hrow' : i / c = j / c := Nat.cast_injective hrow
  calc i = c * (i / c) + i % c := (Nat.div_add_mod i c).symm
    _ = c * (j / c) + j % c := by rw [hcol', hrow']
    _ = j := Nat.div_add_mod j c

/-- C7: for the scene's `panelCount = 100, columns = 9` layer,
`rows = ceil(100 / 9) = 12`, the 100 indices map to pairwise distinct
`(row, col)` pairs, and the 100 computed `(x, y)` placements are pairwise
distinct. -/
theorem grid_rows_and_injectivity :
    rowsFor 100 9 = 12
    ∧ ((List.range 100).map (fun i => (i / 9, i % 9))).Nodup
    ∧ (placements 100 9).Nodup := by
  refine ⟨by norm_num [rowsFor], ?_, ?_⟩
  · have hinj : Function.Injective (fun i : ℕ => (i / 9, i % 9)) := by
      intro i j h
      simp only [Prod.mk.injEq] at h
      omega
    exact (List.nodup_range 100).map hinj
  · exact (List.nodup_range 100).map (placement_injective 100 9)
